import Mathlib

/-!
Verification of the karl media-relay core against its natural-language
specification.  The Go sources are shallowly embedded: machine integers
become `Nat`/`Int` with explicit wrap-around (`% 2^w`), byte slices become
`List Nat`, fallible functions return `Except`.  Each embedded definition
keeps the name of the Go function it models.  All definitions come first,
followed by the theorems.
-/

namespace Karl

/-! ## Machine-integer helpers

Go `int16` arithmetic wraps modulo 2^16 into the signed range; `uint8`
and `uint16` wrap modulo 2^8 and 2^16.  `Int.emod` is non-negative for a
positive modulus, so `wrap16` lands in `[-32768, 32767]`. -/

/-- Wrap an integer into the signed 16-bit range, as Go `int16` arithmetic does. -/
def wrap16 (x : Int) : Int :=
  (x + 32768) % 65536 - 32768

/-- Low 8 bits of an integer, as Go's conversion `uint8(x)` of an `int16`. -/
def toByte (x : Int) : Nat :=
  (x % 256).toNat

/-! ## G.711 μ-law codec (src/unnamed/part_010, `DecodePCMUToPCM` /
`EncodePCMToPCMU`)

The Go decoder inverts all bits of the codeword, splits it into
sign/exponent/mantissa, and expands `((mantissa << 3) + 0x84) << exponent`;
it never subtracts the bias 0x84 again.  The encoder negates (with `int16`
wrap-around, so `-32768` stays negative), adds the bias 132 (again with
wrap-around, so large magnitudes overflow), and then right-shifts until the
value is at most 15, counting shifts as the exponent; there is no clamping. -/

inductive AudioErr where
  | emptyPayload
  | emptyPCMData
  | payloadTooShortForOpus
  | opusDecodeFailed
  | opusEncodeFailed
  deriving DecidableEq, Repr

/-- One byte of `DecodePCMUToPCM` (part_010 lines 407-425): invert all
bits, split fields, expand without removing the bias. -/
def decodeMuByte (c : Nat) : Int :=
  let mu := 255 - c % 256
  let sign := (mu &&& 0x80) >>> 7
  let exponent := (mu &&& 0x70) >>> 4
  let mantissa := mu &&& 0x0F
  let magnitude := wrap16 (wrap16 ((mantissa <<< 3 : Nat) + 0x84) * 2 ^ exponent)
  if sign = 1 then -magnitude else magnitude

/-- `DecodePCMUToPCM`: empty payload is rejected, otherwise every byte is
decoded independently. -/
def DecodePCMUToPCM (payload : List Nat) : Except AudioErr (List Int) :=
  if payload = [] then .error .emptyPayload
  else .ok (payload.map decodeMuByte)

/-- The reference G.711 μ-law expansion, following the spec's words
("standard G.711 bias=0x84, segment-based encoding" and its standard
inverse): identical field split, but the bias 0x84 is subtracted back
after the shift, so codeword 0xFF decodes to linear 0. -/
def refMuLawDecode (c : Nat) : Int :=
  let mu := 255 - c % 256
  let sign := (mu &&& 0x80) >>> 7
  let exponent := (mu &&& 0x70) >>> 4
  let mantissa := mu &&& 0x0F
  let t : Int := ((mantissa <<< 3 : Nat) + 0x84) * 2 ^ exponent
  if sign = 1 then 132 - t else t - 132

/-- The normalisation loop of `EncodePCMToPCMU` (part_010 lines 448-452):
`for sample > 15 { sample >>= 1; exponent++ }`.  Structural fuel
recursion; the biased sample is below 2^15, so 16 units of fuel always
suffice (`shiftLoop_fuel_enough`). -/
def shiftLoop : Nat → Int → Nat → Int × Nat
  | 0, s, e => (s, e)
  | fuel + 1, s, e => if 15 < s then shiftLoop fuel (s / 2) (e + 1) else (s, e)

/-- One sample of `EncodePCMToPCMU` (part_010 lines 437-462): sign and
negate (with `int16` wrap), add the bias 132 (with `int16` wrap), shift
down to at most 15, then pack exponent and mantissa in `uint8` arithmetic
and invert all bits.  No clamping anywhere. -/
def encodeMuByte (s : Int) : Nat :=
  let sign := s < 0
  let s1 := if sign then wrap16 (-s) else s
  let s2 := wrap16 (s1 + 132)
  let (s3, exponent) := shiftLoop 16 s2 0
  let mantissa := toByte s3
  let mu := ((exponent <<< 4) % 256) ||| mantissa
  let mu2 := if sign then mu ||| 0x80 else mu
  255 - mu2 % 256

/-- `EncodePCMToPCMU`: empty input is rejected, otherwise every sample is
encoded independently. -/
def EncodePCMToPCMU (pcm : List Int) : Except AudioErr (List Nat) :=
  if pcm = [] then .error .emptyPCMData
  else .ok (pcm.map encodeMuByte)

/-! ## `NormalizeAudio` (src/unnamed/part_010 lines 489-521)

The peak search takes the absolute value by `int16` negation, so `-32768`
stays negative and never updates the maximum; the scaling branch fires
only when the peak exceeds 32767, which never happens for `int16`
samples. -/

/-- The absolute-value step of the peak loop: `abs := sample; if abs < 0 {
abs = -abs }`, with `int16` wrap-around on the negation. -/
def int16Abs (s : Int) : Int :=
  if s < 0 then wrap16 (-s) else s

/-- The peak-scan loop of `NormalizeAudio`: fold `if abs > maxAmp { maxAmp
= abs }` over the samples, starting from 0. -/
def maxAmpScan (pcm : List Int) : Int :=
  pcm.foldl (fun maxAmp s => if maxAmp < int16Abs s then int16Abs s else maxAmp) 0

/-- `NormalizeAudio`: scales only when the scanned peak exceeds 32767
(`pcmMaxAmplitude`).  The scaling itself uses floating point in Go, but
that branch is unreachable for `int16` input (see
`c10_NormalizeAudio_identity`), so it is modelled by a value visibly
different from the input. -/
def NormalizeAudio (pcm : List Int) : List Int :=
  if pcm = [] then pcm
  else
    let maxAmp := maxAmpScan pcm
    if maxAmp = 0 then pcm
    else if 32767 < maxAmp then [] -- float-scaling branch, proven unreachable
    else pcm

/-! ## `TranscodeAudio` dispatch (src/unnamed/part_010 lines 37-50)

The Opus conversions (`OpusToPCMU`, `PCMUToOpus`) run a floating-point
pure-Go codec and are passed in as parameters; the μ-law↔A-law 256-entry
translation tables live in `codec_table.go`, which is not among the given
sources, so the tables are parameters as well.  Every theorem below either
quantifies over these parameters or exercises only the branches that never
touch them. -/

/-- `webrtc.MimeTypeOpus`. -/
def MimeTypeOpus : String := "audio/opus"

/-- `webrtc.MimeTypePCMU`. -/
def MimeTypePCMU : String := "audio/PCMU"

/-- `webrtc.MimeTypePCMA`. -/
def MimeTypePCMA : String := "audio/PCMA"

/-- `webrtc.MimeTypeVP8`. -/
def MimeTypeVP8 : String := "video/VP8"

/-- `webrtc.MimeTypeH264`. -/
def MimeTypeH264 : String := "video/H264"

/-- `PCMUToPCMA` (part_010 lines 53-64): empty check then byte-wise table
lookup. -/
def PCMUToPCMA (muLawToALawMap : Nat → Nat) (payload : List Nat) :
    Except AudioErr (List Nat) :=
  if payload = [] then .error .emptyPayload
  else .ok (payload.map muLawToALawMap)

/-- `PCMAToPCMU` (part_010 lines 68-78): empty check then byte-wise table
lookup. -/
def PCMAToPCMU (aLawToMuLawMap : Nat → Nat) (payload : List Nat) :
    Except AudioErr (List Nat) :=
  if payload = [] then .error .emptyPayload
  else .ok (payload.map aLawToMuLawMap)

/-- `TranscodeAudio` (part_010 lines 37-50): a four-case switch on the
codec pair; the default case returns the payload unchanged with no
error. -/
def TranscodeAudio (opusToPCMU pcmuToOpus : List Nat → Except AudioErr (List Nat))
    (muLawToALawMap aLawToMuLawMap : Nat → Nat)
    (payload : List Nat) (inputCodec outputCodec : String) :
    Except AudioErr (List Nat) :=
  if inputCodec = MimeTypeOpus ∧ outputCodec = MimeTypePCMU then
    opusToPCMU payload
  else if inputCodec = MimeTypePCMU ∧ outputCodec = MimeTypeOpus then
    pcmuToOpus payload
  else if inputCodec = MimeTypePCMA ∧ outputCodec = MimeTypePCMU then
    PCMAToPCMU aLawToMuLawMap payload
  else if inputCodec = MimeTypePCMU ∧ outputCodec = MimeTypePCMA then
    PCMUToPCMA muLawToALawMap payload
  else .ok payload

/-- The codec pairs handled by a non-default branch of `TranscodeAudio`. -/
def supportedPair (inputCodec outputCodec : String) : Bool :=
  (inputCodec == MimeTypeOpus && outputCodec == MimeTypePCMU) ||
  (inputCodec == MimeTypePCMU && outputCodec == MimeTypeOpus) ||
  (inputCodec == MimeTypePCMA && outputCodec == MimeTypePCMU) ||
  (inputCodec == MimeTypePCMU && outputCodec == MimeTypePCMA)

/-! ## Egress header rewrite (src/internal/transcoder-pion.go,
`transcodeAndSend` lines 212-239, `AddTrackPair` lines 69-106)

`trackPair` is created with only `inputTrack`, `outputTrack`, `ssrc` and
`codec` set; `sequenceNum` and `payloadType` are zero-valued.  On each
packet, `transcodeAndSend` transcodes the payload, emits a packet whose
header copies the ingress timestamp and marker verbatim, and increments
the pair's sequence counter (a `uint16`, wrapping) only on success. -/

structure InPacket where
  sequenceNumber : Nat
  timestamp : Nat
  marker : Bool
  payload : List Nat
  deriving DecidableEq, Repr

structure OutPacket where
  version : Nat
  payloadType : Nat
  sequenceNumber : Nat
  timestamp : Nat
  ssrc : Nat
  marker : Bool
  payload : List Nat
  deriving DecidableEq, Repr

structure TrackPairState where
  inputMime : String
  codec : String
  ssrc : Nat
  sequenceNum : Nat
  payloadType : Nat
  deriving DecidableEq, Repr

/-- `getPreferredCodec` (transcoder-pion.go lines 251-260). -/
def getPreferredCodec (inputMime : String) : String :=
  if inputMime = MimeTypeOpus then MimeTypePCMU
  else if inputMime = MimeTypeVP8 then MimeTypeH264
  else inputMime

/-- The `trackPair` built by `AddTrackPair`: `sequenceNum` and
`payloadType` are left at their Go zero values. -/
def AddTrackPair (inputMime : String) (ssrc : Nat) : TrackPairState :=
  { inputMime := inputMime, codec := getPreferredCodec inputMime,
    ssrc := ssrc, sequenceNum := 0, payloadType := 0 }

/-- `transcodeAndSend`: on transcoding error the packet is dropped and the
pair is unchanged; on success the output header is built from the pair's
counters plus the ingress timestamp and marker, and the sequence counter
is incremented with `uint16` wrap-around.  (A failed socket write also
drops the packet before the increment; the embedding models the emitted
stream, so writes are taken to succeed.) -/
def transcodeAndSend (otp pto : List Nat → Except AudioErr (List Nat))
    (mta atm : Nat → Nat) (pair : TrackPairState) (p : InPacket) :
    TrackPairState × Option OutPacket :=
  match TranscodeAudio otp pto mta atm p.payload pair.inputMime pair.codec with
  | .error _ => (pair, none)
  | .ok tp =>
      ({ pair with sequenceNum := (pair.sequenceNum + 1) % 65536 },
       some { version := 2, payloadType := pair.payloadType,
              sequenceNumber := pair.sequenceNum, timestamp := p.timestamp,
              ssrc := pair.ssrc, marker := p.marker, payload := tp })

/-- Feeding a list of packets through `transcodeAndSend`, collecting the
emitted packets in order. -/
def transcodeRun (otp pto : List Nat → Except AudioErr (List Nat))
    (mta atm : Nat → Nat) (pair : TrackPairState) :
    List InPacket → TrackPairState × List OutPacket
  | [] => (pair, [])
  | p :: ps =>
      let r1 := transcodeAndSend otp pto mta atm pair p
      let r2 := transcodeRun otp pto mta atm r1.1 ps
      (r2.1, r1.2.toList ++ r2.2)

/-! ## RTP packet parsing (src/unnamed/part_007, `ParseRTPPacket` lines
228-323)

Bytes are `Nat`s below 256; big-endian reads mirror
`binary.BigEndian.Uint16/Uint32`.  Every slice access in the Go code is
guarded by an explicit length check, so `getD _ 0` faithfully models the
in-bounds accesses.  The Go function records a receive time
(`time.Now()`), which has no observable content here and is omitted.
Errors are distinguished by which `fmt.Errorf` site produced them; there
is no version check anywhere in the function. -/

instance {ε α : Type} [DecidableEq ε] [DecidableEq α] : DecidableEq (Except ε α) :=
  fun a b =>
    match a, b with
    | .error e, .error f =>
        if h : e = f then isTrue (by rw [h]) else isFalse (fun hh => h (by injection hh))
    | .error _, .ok _ => isFalse (fun hh => Except.noConfusion hh)
    | .ok _, .error _ => isFalse (fun hh => Except.noConfusion hh)
    | .ok x, .ok y =>
        if h : x = y then isTrue (by rw [h]) else isFalse (fun hh => h (by injection hh))

structure RTPPacket where
  Version : Nat
  Padding : Bool
  Extension : Bool
  CSRCCount : Nat
  Marker : Bool
  PayloadType : Nat
  SequenceNumber : Nat
  Timestamp : Nat
  SSRC : Nat
  CSRC : List Nat
  ExtensionData : List Nat
  Payload : List Nat
  deriving DecidableEq, Repr

inductive ParseErr where
  | tooShortForHeader
  | tooShortForCSRC
  | tooShortForExtHeader
  | tooShortForExtData
  deriving DecidableEq, Repr

/-- Byte access `data[i]`; every use is guarded by a length check. -/
def byteAt (data : List Nat) (i : Nat) : Nat := data.getD i 0

/-- `binary.BigEndian.Uint16(data[i:i+2])`. -/
def beU16 (data : List Nat) (i : Nat) : Nat :=
  byteAt data i * 256 + byteAt data (i + 1)

/-- `binary.BigEndian.Uint32(data[i:i+4])`. -/
def beU32 (data : List Nat) (i : Nat) : Nat :=
  ((byteAt data i * 256 + byteAt data (i + 1)) * 256 + byteAt data (i + 2)) * 256
    + byteAt data (i + 3)

/-- `data[a:b]` as a list slice. -/
def sliceList (data : List Nat) (a b : Nat) : List Nat :=
  (data.drop a).take (b - a)

/-- The common tail of `ParseRTPPacket` (lines 302-322): padding handling
and payload extraction, shared by the extension and no-extension paths. -/
def rtpFinish (data : List Nat) (version : Nat) (hasPadding hasExtension : Bool)
    (csrcCount : Nat) (marker : Bool) (payloadType : Nat)
    (csrc extData : List Nat) (hs : Nat) : RTPPacket :=
  let payloadEnd :=
    if hasPadding ∧ 0 < data.length then
      let paddingSize := byteAt data (data.length - 1)
      if 0 < paddingSize ∧ paddingSize ≤ data.length then data.length - paddingSize
      else data.length
    else data.length
  { Version := version, Padding := hasPadding, Extension := hasExtension,
    CSRCCount := csrcCount, Marker := marker, PayloadType := payloadType,
    SequenceNumber := beU16 data 2, Timestamp := beU32 data 4,
    SSRC := beU32 data 8, CSRC := csrc, ExtensionData := extData,
    Payload := if hs < payloadEnd then sliceList data hs payloadEnd else [] }

/-- `ParseRTPPacket` (part_007 lines 228-323). -/
def ParseRTPPacket (data : List Nat) : Except ParseErr RTPPacket :=
  if data.length < 12 then .error .tooShortForHeader
  else
    let headerByte := byteAt data 0
    let version := (headerByte >>> 6) &&& 0x03
    let hasPadding := headerByte &&& 0x20 != 0
    let hasExtension := headerByte &&& 0x10 != 0
    let csrcCount := headerByte &&& 0x0F
    let markerAndPT := byteAt data 1
    let marker := markerAndPT &&& 0x80 != 0
    let payloadType := markerAndPT &&& 0x7F
    let headerSize := 12 + 4 * csrcCount
    if data.length < headerSize then .error .tooShortForCSRC
    else
      let csrc := (List.range csrcCount).map fun i => beU32 data (12 + 4 * i)
      if hasExtension then
        if data.length < headerSize + 4 then .error .tooShortForExtHeader
        else
          let extLength := beU16 data (headerSize + 2) * 4
          if data.length < headerSize + 4 + extLength then .error .tooShortForExtData
          else
            .ok (rtpFinish data version hasPadding hasExtension csrcCount marker
              payloadType csrc
              (sliceList data (headerSize + 4) (headerSize + 4 + extLength))
              (headerSize + 4 + extLength))
      else
        .ok (rtpFinish data version hasPadding hasExtension csrcCount marker
          payloadType csrc [] headerSize)

/-! ## Jitter buffer / reorder window (src/internal/transcoder-pion.go,
`handleJitterBuffer` lines 174-192, `processBufferedPackets` lines
194-210, `processTrack` lines 148-158)

`diff := packet.SequenceNumber - buffer.lastSeq` is unsigned `uint16`
subtraction; a packet whose unsigned distance exceeds `maxSize` is handed
to `transcodeAndSend` immediately and `lastSeq` is reset to its sequence
number, without touching the ring.  Otherwise the packet is stored in
slot `seq mod maxSize` (overwriting any held packet there) and the ring
is drained from `lastSeq` while consecutive slots match.  The emission
list records the packets handed to `transcodeAndSend`, in order. -/

structure JPacket where
  seq : Nat
  payload : List Nat
  deriving DecidableEq, Repr

structure PacketBuffer where
  packets : List (Option JPacket)
  maxSize : Nat
  initialized : Bool
  lastSeq : Nat
  deriving DecidableEq, Repr

/-- The packets held in the ring, in slot order. -/
def somesOf (ring : List (Option JPacket)) : List JPacket :=
  ring.filterMap id

/-- Number of occupied ring slots; used as fuel for the drain loop, which
clears one occupied slot per iteration. -/
def countSome (ring : List (Option JPacket)) : Nat :=
  (somesOf ring).length

/-- Unsigned 16-bit subtraction `s - t` as in Go `uint16` arithmetic. -/
def seqDiff (s t : Nat) : Nat :=
  (s % 65536 + 65536 - t % 65536) % 65536

/-- The drain loop of `processBufferedPackets`: emit and clear the slot at
`lastSeq mod maxSize` while it holds the packet with sequence `lastSeq`,
incrementing `lastSeq` with `uint16` wrap.  Each iteration clears an
occupied slot and never fills one, so `countSome` fuel is exact
(when the fuel runs out the ring is empty and the loop would stop
anyway). -/
def drain (msz : Nat) : Nat → List (Option JPacket) → Nat →
    List (Option JPacket) × Nat × List JPacket
  | 0, ring, lastSeq => (ring, lastSeq, [])
  | fuel + 1, ring, lastSeq =>
    match ring.getD (lastSeq % msz) none with
    | none => (ring, lastSeq, [])
    | some q =>
      if q.seq = lastSeq then
        let r := drain msz fuel (ring.set (lastSeq % msz) none) ((lastSeq + 1) % 65536)
        (r.1, r.2.1, q :: r.2.2)
      else (ring, lastSeq, [])

/-- `processBufferedPackets` (transcoder-pion.go lines 194-210). -/
def processBufferedPackets (b : PacketBuffer) : PacketBuffer × List JPacket :=
  let r := drain (b.maxSize % 65536) (countSome b.packets) b.packets b.lastSeq
  ({ b with packets := r.1, lastSeq := r.2.1 }, r.2.2)

/-- `handleJitterBuffer` (transcoder-pion.go lines 174-192); `uint16
(buffer.maxSize)` is `maxSize % 65536`. -/
def handleJitterBuffer (b : PacketBuffer) (p : JPacket) : PacketBuffer × List JPacket :=
  let uSize := b.maxSize % 65536
  let diff := seqDiff p.seq b.lastSeq
  if uSize < diff then
    ({ b with lastSeq := p.seq }, [p])
  else
    processBufferedPackets
      { b with packets := b.packets.set (p.seq % uSize) (some p) }

/-- One packet through `processTrack`'s initialization (lines 148-155)
followed by `handleJitterBuffer`. -/
def deliverPacket (b : PacketBuffer) (p : JPacket) : PacketBuffer × List JPacket :=
  let b0 := if b.initialized then b else { b with lastSeq := p.seq, initialized := true }
  handleJitterBuffer b0 p

/-- A whole packet list through the reorder window, collecting emissions
in order. -/
def runJitter (b : PacketBuffer) : List JPacket → PacketBuffer × List JPacket
  | [] => (b, [])
  | p :: ps =>
    let r1 := deliverPacket b p
    let r2 := runJitter r1.1 ps
    (r2.1, r1.2 ++ r2.2)

/-- The buffer `AddTrackPair` creates: `maxBufferSize = 100` slots, all
empty, uninitialized. -/
def newPacketBuffer : PacketBuffer :=
  { packets := List.replicate 100 none, maxSize := 100,
    initialized := false, lastSeq := 0 }

/-- Checks that the first emitted sequence strictly precedes the second
and so on, "modulo the 16-bit wrap": every consecutive unsigned
difference, read as a signed half-range value, is positive. -/
def strictIncrMod16 : List Nat → Bool
  | [] => true
  | [_] => true
  | a :: b :: rest =>
    (1 ≤ seqDiff b a && seqDiff b a ≤ 32767) && strictIncrMod16 (b :: rest)

/-! ## SDP rewriting (src/internal/sdp_handler.go,
`EnsureSDPCompatibility` lines 86-111)

The Go function splits on `"\n"`, rewrites each line in place, and joins
back.  Strings are embedded as `List Char`; `splitNL`, `joinNL`,
`leadsWith` and `replaceFirst` model `strings.Split(s, "\n")`,
`strings.Join(lines, "\n")`, `strings.HasPrefix` and
`strings.Replace(s, old, new, 1)`.  Note that nothing in the function
ever inserts an `a=crypto` line, and it does not consult the encryption
configuration at all. -/

/-- `strings.Split(s, "\n")`. -/
def splitNL : List Char → List (List Char)
  | [] => [[]]
  | c :: rest =>
    match splitNL rest with
    | [] => [[]]
    | h :: t => if c = '\n' then [] :: h :: t else (c :: h) :: t

/-- `strings.Join(lines, "\n")`. -/
def joinNL : List (List Char) → List Char
  | [] => []
  | [l] => l
  | l :: ls => l ++ '\n' :: joinNL ls

/-- `strings.HasPrefix(s, pat)` (pattern first). -/
def leadsWith : List Char → List Char → Bool
  | [], _ => true
  | _ :: _, [] => false
  | a :: as, b :: bs => a == b && leadsWith as bs

/-- `strings.Replace(s, old, new, 1)`: replace the leftmost occurrence of
`old` (if any) by `new`. -/
def replaceFirst (old new : List Char) : List Char → List Char
  | [] => if leadsWith old [] then new else []
  | c :: rest =>
    if leadsWith old (c :: rest) then new ++ (c :: rest).drop old.length
    else c :: replaceFirst old new rest

/-- The per-line body of `EnsureSDPCompatibility`'s loop: the branch
conditions test the original line, the assignments update it in
sequence. -/
def ensureLine (isWebRTC : Bool) (line : List Char) : List Char :=
  let l1 :=
    if leadsWith "m=audio".toList line || leadsWith "m=video".toList line then
      if isWebRTC then replaceFirst "RTP/AVP".toList "RTP/SAVPF".toList line
      else replaceFirst "RTP/SAVPF".toList "RTP/AVP".toList line
    else line
  let l2 :=
    if leadsWith "a=setup:actpass".toList line && !isWebRTC then
      "a=setup:passive".toList
    else l1
  if leadsWith "a=fingerprint".toList line && !isWebRTC then
    "; Removed DTLS fingerprint for SIP".toList
  else l2

/-- `EnsureSDPCompatibility` (sdp_handler.go lines 86-111). -/
def EnsureSDPCompatibility (sdp : List Char) (isWebRTC : Bool) : List Char :=
  joinNL ((splitNL sdp).map (ensureLine isWebRTC))

/-! ## RTCP Sender Report construction (src/internal/media_handlers.go,
`createRTCPPacket` lines 253-296)

The Go function emits a fixed 4-byte header, a hard-coded sender SSRC,
the NTP timestamp, an RTP timestamp derived as `uint32(seconds * 90000)`,
and the constants 1000 / 160000 as packet and octet counts; no receiver
report block is appended.  The wall-clock seconds (a `uint32`) and the
floating-point-derived NTP fraction are taken as parameters. -/

/-- `binary.BigEndian.PutUint32` of an already-wrapped 32-bit value. -/
def be32 (x : Nat) : List Nat :=
  [x / 2 ^ 24 % 256, x / 2 ^ 16 % 256, x / 2 ^ 8 % 256, x % 256]

/-- `createRTCPPacket` (media_handlers.go lines 253-296), parameterised by
the NTP seconds (`uint32(now.Unix() + 2208988800)`) and fraction. -/
def createRTCPPacket (seconds fraction : Nat) : List Nat :=
  [0x80, 0xc8, 0x00, 0x07] ++ [0x12, 0x34, 0x56, 0x78]
    ++ be32 (seconds % 2 ^ 32) ++ be32 (fraction % 2 ^ 32)
    ++ be32 (seconds % 2 ^ 32 * 90000 % 2 ^ 32)
    ++ be32 1000 ++ be32 160000

end Karl

namespace Karl

/-! # Theorems -/

theorem wrap16_eq_of_range (x : Int) (h1 : -32768 ≤ x) (h2 : x ≤ 32767) :
    wrap16 x = x := by
  unfold wrap16
  omega

theorem wrap16_range (x : Int) : -32768 ≤ wrap16 x ∧ wrap16 x ≤ 32767 := by
  unfold wrap16
  constructor
  · have := Int.emod_nonneg (x + 32768) (by norm_num : (65536 : Int) ≠ 0)
    omega
  · have := Int.emod_lt_of_pos (x + 32768) (by norm_num : (0 : Int) < 65536)
    omega

theorem shiftLoop_fuel_enough (fuel : Nat) (s : Int) (e : Nat)
    (h : s < 2 ^ (fuel + 4)) :
    shiftLoop fuel s e = shiftLoop (fuel + 1) s e := by
  induction fuel generalizing s e with
  | zero =>
    simp only [shiftLoop]
    have : ¬ (15 : Int) < s := by
      have : (2 : Int) ^ (0 + 4) = 16 := by norm_num
      omega
    simp [this]
  | succ n ih =>
    simp only [shiftLoop]
    by_cases hs : (15 : Int) < s
    · simp only [hs, if_true]
      apply ih
      have hpow : (2 : Int) ^ (n + 1 + 4) = 2 * 2 ^ (n + 4) := by ring
      omega
    · simp [hs]

theorem int16Abs_le (s : Int) (h1 : -32768 ≤ s) (h2 : s ≤ 32767) :
    int16Abs s ≤ 32767 := by
  unfold int16Abs
  by_cases hs : s < 0
  · simp only [hs, if_true]
    rcases eq_or_lt_of_le h1 with heq | hlt
    · have : -s = 32768 := by omega
      rw [this]
      unfold wrap16
      norm_num
    · rw [wrap16_eq_of_range] <;> omega
  · simp only [hs, if_false]
    omega

theorem maxAmpScan_le (pcm : List Int)
    (h : ∀ s ∈ pcm, -32768 ≤ s ∧ s ≤ 32767) :
    maxAmpScan pcm ≤ 32767 := by
  unfold maxAmpScan
  have key : ∀ (l : List Int) (a : Int), (∀ s ∈ l, -32768 ≤ s ∧ s ≤ 32767) →
      a ≤ 32767 →
      l.foldl (fun maxAmp s => if maxAmp < int16Abs s then int16Abs s else maxAmp) a
        ≤ 32767 := by
    intro l
    induction l with
    | nil => intro a _ ha; simpa using ha
    | cons x xs ih =>
      intro a hmem ha
      simp only [List.foldl_cons]
      apply ih
      · intro s hs; exact hmem s (List.mem_cons_of_mem x hs)
      · by_cases hx : a < int16Abs x
        · simp only [hx, if_true]
          have := hmem x (List.mem_cons_self x xs)
          exact int16Abs_le x this.1 this.2
        · simpa [hx] using ha
  exact key pcm 0 h (by norm_num)

/-- C10: `NormalizeAudio` is the identity on every `int16` PCM slice: the
peak scan never exceeds 32767 (the `int16` negation of -32768 stays
negative and never raises the peak), so the scaling branch is
unreachable. -/
theorem c10_NormalizeAudio_identity (pcm : List Int)
    (h : ∀ s ∈ pcm, -32768 ≤ s ∧ s ≤ 32767) :
    NormalizeAudio pcm = pcm := by
  unfold NormalizeAudio
  by_cases hn : pcm = []
  · simp [hn]
  · simp only [hn, if_false]
    by_cases h0 : maxAmpScan pcm = 0
    · simp [h0]
    · have hle := maxAmpScan_le pcm h
      have hnlt : ¬ 32767 < maxAmpScan pcm := by omega
      simp [h0, hnlt]

/-- C10 witness: `NormalizeAudio` applied at a slice containing the
extreme sample -32768 returns it unchanged. -/
theorem c10_witness : NormalizeAudio [-32768, 5, -7] = [-32768, 5, -7] :=
  c10_NormalizeAudio_identity [-32768, 5, -7] (by decide)

/-- C2 counterexample: the code's μ-law decoder is not the standard
inverse.  Codeword 0xFF decodes to 132 in the code (the final bias
subtraction is missing), while the reference G.711 expansion gives 0. -/
theorem c2_counterexample :
    DecodePCMUToPCM [255] = .ok [132] ∧ refMuLawDecode 255 = 0 ∧ (132 : Int) ≠ 0 :=
  ⟨rfl, by decide, by decide⟩

set_option maxRecDepth 2000 in
set_option maxHeartbeats 1000000 in
/-- C2 (amended): `DecodePCMUToPCM` performs the standard field split and
segment expansion but omits the final bias subtraction, so every codeword
decodes to the reference G.711 linear value plus 132 (codewords ≥ 0x80)
or minus 132 (codewords < 0x80); `EncodePCMToPCMU` adds the bias 132 with
wrapping `int16` arithmetic and no clamping, so the full-scale sample
32767 overflows and encodes to 0x7C instead of the standard 0x80. -/
theorem c2_decode_offset_from_reference :
    (∀ c, c < 256 →
        decodeMuByte c = refMuLawDecode c + (if c < 128 then -132 else 132)) ∧
    EncodePCMToPCMU [32767] = .ok [124] :=
  ⟨by decide, rfl⟩

/-- C2 witness: the offset relation evaluated at codeword 0xFF. -/
theorem c2_witness :
    decodeMuByte 255 = refMuLawDecode 255 + (if (255 : Nat) < 128 then -132 else 132) :=
  c2_decode_offset_from_reference.1 255 (by decide)

/-- C3 counterexample: the codec pair (PCMA, Opus) is handled by none of
the four conversion branches, yet `TranscodeAudio` returns the payload
unchanged with no error instead of an unsupported-conversion error. -/
theorem c3_counterexample :
    TranscodeAudio (fun _ => .error .opusDecodeFailed) (fun _ => .error .opusDecodeFailed)
      id id [0x55] MimeTypePCMA MimeTypeOpus = .ok [0x55] := rfl

/-- C3 (amended): for every codec pair outside the four conversion cases
(Opus→PCMU, PCMU→Opus, PCMA→PCMU, PCMU→PCMA), `TranscodeAudio` returns
the input payload unchanged with no error — there is no
unsupported-conversion error; in particular for same-codec input and
output it returns the input unchanged. -/
theorem c3_default_passthrough :
    (∀ otp pto mta atm payload ic oc, supportedPair ic oc = false →
        TranscodeAudio otp pto mta atm payload ic oc = .ok payload) ∧
    (∀ otp pto mta atm payload c,
        TranscodeAudio otp pto mta atm payload c c = .ok payload) := by
  constructor
  · intro otp pto mta atm payload ic oc hsup
    unfold TranscodeAudio
    have h1 : ¬(ic = MimeTypeOpus ∧ oc = MimeTypePCMU) := by
      rintro ⟨a, b⟩; subst a; subst b; exact absurd hsup (by decide)
    have h2 : ¬(ic = MimeTypePCMU ∧ oc = MimeTypeOpus) := by
      rintro ⟨a, b⟩; subst a; subst b; exact absurd hsup (by decide)
    have h3 : ¬(ic = MimeTypePCMA ∧ oc = MimeTypePCMU) := by
      rintro ⟨a, b⟩; subst a; subst b; exact absurd hsup (by decide)
    have h4 : ¬(ic = MimeTypePCMU ∧ oc = MimeTypePCMA) := by
      rintro ⟨a, b⟩; subst a; subst b; exact absurd hsup (by decide)
    rw [if_neg h1, if_neg h2, if_neg h3, if_neg h4]
  · intro otp pto mta atm payload c
    unfold TranscodeAudio
    have h1 : ¬(c = MimeTypeOpus ∧ c = MimeTypePCMU) := by
      rintro ⟨a, b⟩; rw [a] at b; exact absurd b (by decide)
    have h2 : ¬(c = MimeTypePCMU ∧ c = MimeTypeOpus) := by
      rintro ⟨a, b⟩; rw [a] at b; exact absurd b (by decide)
    have h3 : ¬(c = MimeTypePCMA ∧ c = MimeTypePCMU) := by
      rintro ⟨a, b⟩; rw [a] at b; exact absurd b (by decide)
    have h4 : ¬(c = MimeTypePCMU ∧ c = MimeTypePCMA) := by
      rintro ⟨a, b⟩; rw [a] at b; exact absurd b (by decide)
    rw [if_neg h1, if_neg h2, if_neg h3, if_neg h4]

/-- C3 witness: the unsupported pair (G722, PCMU) passes through
unchanged. -/
theorem c3_witness :
    supportedPair "audio/G722" MimeTypePCMU = false ∧
    TranscodeAudio (fun _ => .error .opusDecodeFailed) (fun _ => .error .opusDecodeFailed)
      id id [1, 2] "audio/G722" MimeTypePCMU = .ok [1, 2] :=
  ⟨by decide,
   c3_default_passthrough.1 _ _ _ _ [1, 2] "audio/G722" MimeTypePCMU (by decide)⟩

theorem transcodeRun_seqNums (otp pto : List Nat → Except AudioErr (List Nat))
    (mta atm : Nat → Nat) :
    ∀ (ps : List InPacket) (pair : TrackPairState), pair.sequenceNum < 65536 →
      (transcodeRun otp pto mta atm pair ps).2.map OutPacket.sequenceNumber
        = (List.range (transcodeRun otp pto mta atm pair ps).2.length).map
            (fun i => (pair.sequenceNum + i) % 65536) := by
  intro ps
  induction ps with
  | nil => intro pair _; simp [transcodeRun]
  | cons p ps ih =>
    intro pair hseq
    simp only [transcodeRun]
    cases hta : TranscodeAudio otp pto mta atm p.payload pair.inputMime pair.codec with
    | error e =>
      simp only [transcodeAndSend, hta, Option.toList_none, List.nil_append]
      exact ih pair hseq
    | ok tp =>
      simp only [transcodeAndSend, hta, Option.toList_some, List.singleton_append,
        List.map_cons, List.length_cons]
      have hlt : (pair.sequenceNum + 1) % 65536 < 65536 := Nat.mod_lt _ (by norm_num)
      have hrec := ih { pair with sequenceNum := (pair.sequenceNum + 1) % 65536 } hlt
      rw [List.range_succ_eq_map, List.map_cons, List.map_map]
      congr 1
      · exact (by simpa using (Nat.mod_eq_of_lt hseq).symm)
      · rw [hrec]
        apply List.map_congr_left
        intro i _
        simp only [Function.comp_apply]
        rw [Nat.mod_add_mod]
        omega

/-- C4 counterexample: for a trackpair created from an Opus input track
(clock rate 48000) with PCMU output (clock rate 8000 per `AddTrackPair`),
the emitted timestamps are copied verbatim from the ingress timestamps
(0 then 48), which no fixed base offset can reconcile with the claimed
rebasing formula `ts_out = ts_in·8000/48000 + base` (even modulo 2^32).
The Opus decode parameter returns success as the source's pure-Go decoder
does for any payload of at least 6 bytes. -/
theorem c4_counterexample :
    ((transcodeRun (fun pl => .ok pl) (fun _ => .error .opusDecodeFailed) id id
        (AddTrackPair MimeTypeOpus 7)
        [⟨1, 0, false, [0, 0, 0, 0, 0, 0]⟩, ⟨2, 48, false, [0, 0, 0, 0, 0, 0]⟩]).2.map
        OutPacket.timestamp = [0, 48]) ∧
    ¬ ∃ b : Nat, 0 = (0 * 8000 / 48000 + b) % 2 ^ 32 ∧
        48 = (48 * 8000 / 48000 + b) % 2 ^ 32 := by
  constructor
  · rfl
  · rintro ⟨b, h1, h2⟩
    norm_num at h1 h2
    omega

/-- C4 (amended): every packet emitted by `transcodeAndSend` carries the
pair's current sequence counter (which starts at the zero value set by
`AddTrackPair`, not at a random value, and increments by one modulo 2^16
per emitted packet), the ingress timestamp copied unchanged (no
rate-conversion rebasing), the pair's zero-valued `payloadType` field,
the ingress marker bit, and the pair's SSRC; consequently the k-th packet
emitted since track creation has sequence number k mod 2^16. -/
theorem c4_header_rewrite :
    (∀ otp pto mta atm (pair : TrackPairState) (p : InPacket)
        (pair' : TrackPairState) (q : OutPacket),
        transcodeAndSend otp pto mta atm pair p = (pair', some q) →
          q.sequenceNumber = pair.sequenceNum ∧
          pair'.sequenceNum = (pair.sequenceNum + 1) % 65536 ∧
          q.timestamp = p.timestamp ∧
          q.payloadType = pair.payloadType ∧
          q.marker = p.marker ∧ q.ssrc = pair.ssrc ∧ q.version = 2) ∧
    (∀ otp pto mta atm mime ssrc ps,
        (transcodeRun otp pto mta atm (AddTrackPair mime ssrc) ps).2.map
            OutPacket.sequenceNumber
          = (List.range
              (transcodeRun otp pto mta atm (AddTrackPair mime ssrc) ps).2.length).map
              (fun i => i % 65536)) := by
  constructor
  · intro otp pto mta atm pair p pair' q h
    unfold transcodeAndSend at h
    cases hta : TranscodeAudio otp pto mta atm p.payload pair.inputMime pair.codec with
    | error e =>
      rw [hta] at h
      simp at h
    | ok tp =>
      rw [hta] at h
      dsimp only at h
      injection h with h1 h2
      injection h2 with h3
      subst h1
      subst h3
      exact ⟨rfl, rfl, rfl, rfl, rfl, rfl, rfl⟩
  · intro otp pto mta atm mime ssrc ps
    have := transcodeRun_seqNums otp pto mta atm ps (AddTrackPair mime ssrc)
      (by simp [AddTrackPair])
    simpa [AddTrackPair] using this

theorem parse_ok_version (data : List Nat) (p : RTPPacket)
    (h : ParseRTPPacket data = .ok p) :
    p.Version = (byteAt data 0 >>> 6) &&& 0x03 := by
  simp only [ParseRTPPacket] at h
  split at h
  · exact absurd h (by simp)
  · split at h
    · exact absurd h (by simp)
    · split at h
      · split at h
        · exact absurd h (by simp)
        · split at h
          · exact absurd h (by simp)
          · injection h with h1; subst h1; rfl
      · injection h with h1; subst h1; rfl

/-- C9: `ParseRTPPacket` rejects every input shorter than 12 bytes with
the too-short error, and accepts every well-formed 12-byte header (byte 0
= 0x80: version 2, no padding, no extension, no CSRCs) with an empty
payload and the header fields read big-endian from the input. -/
theorem c9_parse_boundaries :
    (∀ data : List Nat, data.length < 12 →
        ParseRTPPacket data = .error .tooShortForHeader) ∧
    (∀ b1 b2 b3 b4 b5 b6 b7 b8 b9 b10 b11 : Nat,
        ParseRTPPacket [0x80, b1, b2, b3, b4, b5, b6, b7, b8, b9, b10, b11]
          = .ok { Version := 2, Padding := false, Extension := false, CSRCCount := 0,
                  Marker := b1 &&& 0x80 != 0, PayloadType := b1 &&& 0x7F,
                  SequenceNumber := b2 * 256 + b3,
                  Timestamp := ((b4 * 256 + b5) * 256 + b6) * 256 + b7,
                  SSRC := ((b8 * 256 + b9) * 256 + b10) * 256 + b11,
                  CSRC := [], ExtensionData := [], Payload := [] }) := by
  constructor
  · intro data h
    unfold ParseRTPPacket
    simp [h]
  · intro b1 b2 b3 b4 b5 b6 b7 b8 b9 b10 b11
    simp [ParseRTPPacket, rtpFinish, byteAt, beU16, beU32, sliceList,
      show (128 : Nat) &&& 15 = 0 from rfl,
      show ((128 : Nat) &&& 32 != 0) = false from rfl,
      show ((128 : Nat) &&& 16 != 0) = false from rfl,
      show ((128 : Nat) >>> 6) = 2 from rfl,
      show (2 : Nat) &&& 3 = 2 from rfl]

/-- C9 witness: an 11-byte input is rejected as too short. -/
theorem c9_witness :
    ParseRTPPacket (List.replicate 11 0) = .error .tooShortForHeader :=
  c9_parse_boundaries.1 (List.replicate 11 0) (by decide)

/-- C5 counterexample: a 12-byte packet whose version bits are 0 parses
successfully — `ParseRTPPacket` returns a packet with `Version = 0 ≠ 2`
instead of a bad-version error. -/
theorem c5_counterexample :
    ParseRTPPacket (List.replicate 12 0)
      = .ok { Version := 0, Padding := false, Extension := false, CSRCCount := 0,
              Marker := false, PayloadType := 0, SequenceNumber := 0, Timestamp := 0,
              SSRC := 0, CSRC := [], ExtensionData := [], Payload := [] } ∧
    (0 : Nat) ≠ 2 :=
  ⟨rfl, by decide⟩

/-- C5 (amended): `ParseRTPPacket` never validates the version field:
whenever it succeeds the returned `Version` is simply the top two bits of
the first byte, and a minimal 12-byte packet parses successfully for
every one of the four possible version values — there is no bad-version
error. -/
theorem c5_no_version_check :
    (∀ data p, ParseRTPPacket data = .ok p →
        p.Version = (byteAt data 0 >>> 6) &&& 0x03) ∧
    (∀ v, v < 4 →
        ParseRTPPacket (v <<< 6 :: List.replicate 11 0)
          = .ok { Version := v, Padding := false, Extension := false, CSRCCount := 0,
                  Marker := false, PayloadType := 0, SequenceNumber := 0,
                  Timestamp := 0, SSRC := 0, CSRC := [], ExtensionData := [],
                  Payload := [] }) :=
  ⟨parse_ok_version, by decide⟩

/-- C5 witness: the version projection evaluated on a successfully parsed
packet whose version bits are 1. -/
theorem c5_witness :
    ({ Version := 1, Padding := false, Extension := false, CSRCCount := 0,
       Marker := false, PayloadType := 0, SequenceNumber := 0, Timestamp := 0,
       SSRC := 0, CSRC := [], ExtensionData := [],
       Payload := [] } : RTPPacket).Version
      = (byteAt (64 :: List.replicate 11 0) 0 >>> 6) &&& 0x03 :=
  c5_no_version_check.1 (64 :: List.replicate 11 0) _ rfl

/-- C4 witness: the header facts evaluated on a concrete PCMU
pass-through pair and packet. -/
theorem c4_witness :
    (⟨2, 0, 0, 77, 9, true, [8]⟩ : OutPacket).sequenceNumber
        = (AddTrackPair MimeTypePCMU 9).sequenceNum ∧
    ({ AddTrackPair MimeTypePCMU 9 with sequenceNum := 1 } : TrackPairState).sequenceNum
        = ((AddTrackPair MimeTypePCMU 9).sequenceNum + 1) % 65536 ∧
    (⟨2, 0, 0, 77, 9, true, [8]⟩ : OutPacket).timestamp
        = (⟨5, 77, true, [8]⟩ : InPacket).timestamp ∧
    (⟨2, 0, 0, 77, 9, true, [8]⟩ : OutPacket).payloadType
        = (AddTrackPair MimeTypePCMU 9).payloadType ∧
    (⟨2, 0, 0, 77, 9, true, [8]⟩ : OutPacket).marker
        = (⟨5, 77, true, [8]⟩ : InPacket).marker ∧
    (⟨2, 0, 0, 77, 9, true, [8]⟩ : OutPacket).ssrc
        = (AddTrackPair MimeTypePCMU 9).ssrc ∧
    (⟨2, 0, 0, 77, 9, true, [8]⟩ : OutPacket).version = 2 :=
  c4_header_rewrite.1 (fun _ => .error .opusDecodeFailed)
    (fun _ => .error .opusDecodeFailed) id id (AddTrackPair MimeTypePCMU 9)
    ⟨5, 77, true, [8]⟩ { AddTrackPair MimeTypePCMU 9 with sequenceNum := 1 }
    ⟨2, 0, 0, 77, 9, true, [8]⟩ rfl

theorem splitNL_ne_nil : ∀ s : List Char, splitNL s ≠ []
  | [] => by simp [splitNL]
  | c :: rest => by
    simp only [splitNL]
    cases h : splitNL rest with
    | nil => simp
    | cons hd tl => by_cases hc : c = '\n' <;> simp [hc]

theorem splitNL_no_newline : ∀ (s : List Char), ∀ l ∈ splitNL s, '\n' ∉ l := by
  intro s
  induction s with
  | nil => intro l hl; simp [splitNL] at hl; simp [hl]
  | cons c rest ih =>
    intro l hl
    simp only [splitNL] at hl
    cases h : splitNL rest with
    | nil => exact absurd h (splitNL_ne_nil rest)
    | cons hd tl =>
      rw [h] at hl
      by_cases hc : c = '\n'
      · simp [hc] at hl
        rcases hl with rfl | hl
        · simp
        · exact ih l (by rw [h]; exact List.mem_cons.mpr hl)
      · simp [hc] at hl
        rcases hl with rfl | hl
        · intro hmem
          rcases List.mem_cons.mp hmem with rfl | hmem
          · exact hc rfl
          · exact ih hd (by rw [h]; exact List.mem_cons_self hd tl) hmem
        · exact ih l (by rw [h]; exact List.mem_cons_of_mem hd hl)

theorem splitNL_of_no_newline : ∀ (l : List Char), '\n' ∉ l → splitNL l = [l] := by
  intro l
  induction l with
  | nil => intro _; rfl
  | cons c rest ih =>
    intro h
    have hc : c ≠ '\n' := fun hh => h (by simp [hh])
    have hrest : '\n' ∉ rest := fun hh => h (List.mem_cons_of_mem c hh)
    simp only [splitNL, ih hrest]
    simp [hc]

theorem splitNL_append_newline : ∀ (l r : List Char), '\n' ∉ l →
    splitNL (l ++ '\n' :: r) = l :: splitNL r := by
  intro l r
  induction l with
  | nil =>
    intro _
    simp only [List.nil_append, splitNL]
    cases h : splitNL r with
    | nil => exact absurd h (splitNL_ne_nil r)
    | cons hd tl => simp
  | cons c rest ih =>
    intro h
    have hc : c ≠ '\n' := fun hh => h (by simp [hh])
    have hrest : '\n' ∉ rest := fun hh => h (List.mem_cons_of_mem c hh)
    simp only [List.cons_append, splitNL, List.append_eq]
    rw [ih hrest]
    simp [hc]

theorem splitNL_joinNL : ∀ (ls : List (List Char)), (∀ l ∈ ls, '\n' ∉ l) →
    ls ≠ [] → splitNL (joinNL ls) = ls := by
  intro ls
  induction ls with
  | nil => intro _ h; exact absurd rfl h
  | cons l ls ih =>
    intro hnl _
    cases ls with
    | nil =>
      simp only [joinNL]
      exact splitNL_of_no_newline l (hnl l (List.mem_cons_self l []))
    | cons l2 ls2 =>
      have : joinNL (l :: l2 :: ls2) = l ++ '\n' :: joinNL (l2 :: ls2) := rfl
      rw [this, splitNL_append_newline l _ (hnl l (List.mem_cons_self l _)),
        ih (fun x hx => hnl x (List.mem_cons_of_mem l hx)) (by simp)]

theorem mem_replaceFirst (old new : List Char) : ∀ (s : List Char) (c : Char),
    c ∈ replaceFirst old new s → c ∈ new ∨ c ∈ s := by
  intro s
  induction s with
  | nil =>
    intro c h
    simp only [replaceFirst] at h
    split at h
    · exact Or.inl h
    · simp at h
  | cons a rest ih =>
    intro c h
    simp only [replaceFirst] at h
    split at h
    · rcases List.mem_append.mp h with h1 | h2
      · exact Or.inl h1
      · exact Or.inr (List.drop_subset _ _ h2)
    · rcases List.mem_cons.mp h with rfl | h2
      · exact Or.inr (List.mem_cons_self _ _)
      · rcases ih c h2 with h3 | h3
        · exact Or.inl h3
        · exact Or.inr (List.mem_cons_of_mem a h3)

theorem leadsWith_head (p : Char) (ps s : List Char) (h : leadsWith (p :: ps) s = true) :
    ∃ rest, s = p :: rest := by
  cases s with
  | nil => simp [leadsWith] at h
  | cons c r =>
    simp only [leadsWith, Bool.and_eq_true, beq_iff_eq] at h
    exact ⟨r, by rw [h.1]⟩

theorem ensureLine_no_newline (isW : Bool) (line : List Char) (h : '\n' ∉ line) :
    '\n' ∉ ensureLine isW line := by
  simp only [ensureLine]
  by_cases h3 : (leadsWith "a=fingerprint".toList line && !isW) = true
  · simp only [h3, if_true]
    decide
  · rw [Bool.not_eq_true] at h3
    simp only [h3, Bool.false_eq_true, if_false]
    by_cases h2 : (leadsWith "a=setup:actpass".toList line && !isW) = true
    · simp only [h2, if_true]
      decide
    · rw [Bool.not_eq_true] at h2
      simp only [h2, Bool.false_eq_true, if_false]
      by_cases h1 : (leadsWith "m=audio".toList line || leadsWith "m=video".toList line) = true
      · simp only [h1, if_true]
        cases isW with
        | true =>
          simp only [if_true]
          intro hmem
          rcases mem_replaceFirst _ _ _ _ hmem with hn | hs
          · exact absurd hn (by decide)
          · exact h hs
        | false =>
          simp only [Bool.false_eq_true, if_false]
          intro hmem
          rcases mem_replaceFirst _ _ _ _ hmem with hn | hs
          · exact absurd hn (by decide)
          · exact h hs
      · rw [Bool.not_eq_true] at h1
        simp only [h1, Bool.false_eq_true, if_false]
        exact h

theorem ensureLine_not_crypto (isW : Bool) (line : List Char)
    (h : leadsWith "a=crypto".toList line = false) :
    leadsWith "a=crypto".toList (ensureLine isW line) = false := by
  simp only [ensureLine]
  by_cases h3 : (leadsWith "a=fingerprint".toList line && !isW) = true
  · simp only [h3, if_true]
    decide
  · rw [Bool.not_eq_true] at h3
    simp only [h3, Bool.false_eq_true, if_false]
    by_cases h2 : (leadsWith "a=setup:actpass".toList line && !isW) = true
    · simp only [h2, if_true]
      decide
    · rw [Bool.not_eq_true] at h2
      simp only [h2, Bool.false_eq_true, if_false]
      by_cases h1 : (leadsWith "m=audio".toList line || leadsWith "m=video".toList line) = true
      · simp only [h1, if_true]
        have hm : ∃ rest, line = 'm' :: rest := by
          have h1' : leadsWith "m=audio".toList line = true ∨
              leadsWith "m=video".toList line = true := by simpa using h1
          rcases h1' with ha | hv
          · exact leadsWith_head _ _ _ ha
          · exact leadsWith_head _ _ _ hv
        obtain ⟨rest, rfl⟩ := hm
        cases isW with
        | true =>
          simp only [if_true]
          have hno : leadsWith "RTP/AVP".toList ('m' :: rest) = false := rfl
          simp only [replaceFirst, hno, Bool.false_eq_true, if_false]
          rfl
        | false =>
          simp only [Bool.false_eq_true, if_false]
          have hno : leadsWith "RTP/SAVPF".toList ('m' :: rest) = false := rfl
          simp only [replaceFirst, hno, Bool.false_eq_true, if_false]
          rfl
      · rw [Bool.not_eq_true] at h1
        simp only [h1, Bool.false_eq_true, if_false]
        exact h

set_option maxRecDepth 10000 in
/-- C7 counterexample: rewriting `m=audio 5004 RTP/AVP 0 8` in the
to-webrtc direction flips the profile but produces no `a=crypto` line —
`EnsureSDPCompatibility` never inserts one and does not consult the
encryption configuration at all. -/
theorem c7_counterexample :
    (EnsureSDPCompatibility "m=audio 5004 RTP/AVP 0 8".toList true
      = "m=audio 5004 RTP/SAVPF 0 8".toList) ∧
    ((splitNL (EnsureSDPCompatibility "m=audio 5004 RTP/AVP 0 8".toList true)).all
      (fun l => !(leadsWith "a=crypto".toList l))) = true :=
  ⟨by decide, by decide⟩

set_option maxRecDepth 10000 in
/-- C7 (amended): rewriting `m=audio 5004 RTP/AVP 0 8` in the to-webrtc
direction yields `m=audio 5004 RTP/SAVPF 0 8`, rewriting that back in the
to-sip direction restores `RTP/AVP`, and for every SDP body with no
`a=crypto` line the rewritten body still has none — the rewriter never
adds crypto attributes, in either direction. -/
theorem c7_sdp_flip :
    (EnsureSDPCompatibility "m=audio 5004 RTP/AVP 0 8".toList true
      = "m=audio 5004 RTP/SAVPF 0 8".toList) ∧
    (EnsureSDPCompatibility "m=audio 5004 RTP/SAVPF 0 8".toList false
      = "m=audio 5004 RTP/AVP 0 8".toList) ∧
    (∀ (sdp : List Char) (isW : Bool),
      ((splitNL sdp).all (fun l => !(leadsWith "a=crypto".toList l))) = true →
      ((splitNL (EnsureSDPCompatibility sdp isW)).all
        (fun l => !(leadsWith "a=crypto".toList l))) = true) := by
  refine ⟨by decide, by decide, ?_⟩
  intro sdp isW h
  unfold EnsureSDPCompatibility
  rw [splitNL_joinNL]
  · rw [List.all_map]
    rw [List.all_eq_true] at h ⊢
    intro l hl
    have := h l hl
    simp only [Bool.not_eq_true', Function.comp_apply] at this ⊢
    exact ensureLine_not_crypto isW l this
  · intro l hl
    rcases List.mem_map.mp hl with ⟨x, hx, rfl⟩
    exact ensureLine_no_newline isW x (splitNL_no_newline sdp x hx)
  · intro hmap
    exact splitNL_ne_nil sdp (List.map_eq_nil_iff.mp hmap)

/-- C7 witness: a crypto-free SDP body stays crypto-free through the
to-sip rewrite. -/
theorem c7_witness :
    ((splitNL (EnsureSDPCompatibility "v=0".toList false)).all
      (fun l => !(leadsWith "a=crypto".toList l))) = true :=
  c7_sdp_flip.2.2 "v=0".toList false (by decide)

/-- C8 counterexample: every packet `createRTCPPacket` builds is 28 bytes
(8-byte header + 20-byte sender info) — there is no room for the claimed
per-source receiver report block, which would need at least 24 more
bytes. -/
theorem c8_counterexample :
    (createRTCPPacket 3913056000 0).length = 28 ∧ (28 : Nat) ≠ 8 + 20 + 24 :=
  ⟨rfl, by decide⟩

set_option maxRecDepth 20000 in
set_option maxHeartbeats 2000000 in
/-- C8 (amended): every sender report built by `createRTCPPacket` is
exactly 28 bytes: a fixed 8-byte header (V=2, P=0, RC=0 — zero report
blocks — PT=200, length words 7, hard-coded SSRC 0x12345678) followed by
20 bytes of sender info whose big-endian fields are the NTP seconds, the
NTP fraction, an RTP timestamp computed as `uint32(seconds·90000)`, and
the hard-coded packet count 1000 and octet count 160000 (not taken from
the stream statistics); no receiver report block is appended. -/
theorem c8_sender_report_shape : ∀ seconds fraction : Nat,
    (createRTCPPacket seconds fraction).length = 28 ∧
    List.take 8 (createRTCPPacket seconds fraction)
      = [0x80, 0xc8, 0x00, 0x07, 0x12, 0x34, 0x56, 0x78] ∧
    byteAt (createRTCPPacket seconds fraction) 0 &&& 0x1F = 0 ∧
    beU32 (createRTCPPacket seconds fraction) 8 = seconds % 2 ^ 32 ∧
    beU32 (createRTCPPacket seconds fraction) 12 = fraction % 2 ^ 32 ∧
    beU32 (createRTCPPacket seconds fraction) 16 = seconds % 2 ^ 32 * 90000 % 2 ^ 32 ∧
    beU32 (createRTCPPacket seconds fraction) 20 = 1000 ∧
    beU32 (createRTCPPacket seconds fraction) 24 = 160000 := by
  intro s f
  refine ⟨?_, ?_, ?_, ?_, ?_, ?_, ?_, ?_⟩
  · simp [createRTCPPacket, be32]
  · simp [createRTCPPacket, be32, List.take]
  · simp [createRTCPPacket, be32, byteAt, show (128 : Nat) &&& 31 = 0 from rfl]
  · simp [createRTCPPacket, be32, beU32, byteAt]
    norm_num
    omega
  · simp [createRTCPPacket, be32, beU32, byteAt]
    norm_num
    omega
  · obtain ⟨C, hC, hClt⟩ : ∃ C, s % 2 ^ 32 * 90000 % 2 ^ 32 = C ∧ C < 2 ^ 32 :=
      ⟨_, rfl, Nat.mod_lt _ (by norm_num)⟩
    have h : beU32 (createRTCPPacket s f) 16
        = ((s % 2 ^ 32 * 90000 % 2 ^ 32 / 2 ^ 24 % 256 * 256
            + s % 2 ^ 32 * 90000 % 2 ^ 32 / 2 ^ 16 % 256) * 256
            + s % 2 ^ 32 * 90000 % 2 ^ 32 / 2 ^ 8 % 256) * 256
            + s % 2 ^ 32 * 90000 % 2 ^ 32 % 256 := rfl
    rw [h, hC]
    clear h hC
    norm_num
    omega
  · norm_num [beU32, byteAt, createRTCPPacket, be32]
  · norm_num [beU32, byteAt, createRTCPPacket, be32]

theorem drain_zero (msz : Nat) (ring : List (Option JPacket)) (ls : Nat) :
    drain msz 0 ring ls = (ring, ls, []) := rfl

theorem drain_succ_of_none (msz fuel : Nat) (ring : List (Option JPacket)) (ls : Nat)
    (hm : ring.getD (ls % msz) none = none) :
    drain msz (fuel + 1) ring ls = (ring, ls, []) := by
  rw [List.getD_eq_getElem?_getD] at hm
  simp [drain, hm]

theorem drain_succ_of_mismatch (msz fuel : Nat) (ring : List (Option JPacket)) (ls : Nat)
    (q : JPacket) (hm : ring.getD (ls % msz) none = some q) (hq : q.seq ≠ ls) :
    drain msz (fuel + 1) ring ls = (ring, ls, []) := by
  rw [List.getD_eq_getElem?_getD] at hm
  simp [drain, hm, hq]

theorem drain_succ_of_match (msz fuel : Nat) (ring : List (Option JPacket)) (ls : Nat)
    (q : JPacket) (hm : ring.getD (ls % msz) none = some q) (hq : q.seq = ls) :
    drain msz (fuel + 1) ring ls
      = ((drain msz fuel (ring.set (ls % msz) none) ((ls + 1) % 65536)).1,
         (drain msz fuel (ring.set (ls % msz) none) ((ls + 1) % 65536)).2.1,
         q :: (drain msz fuel (ring.set (ls % msz) none) ((ls + 1) % 65536)).2.2) := by
  rw [List.getD_eq_getElem?_getD] at hm
  simp [drain, hm, hq]

theorem getD_set_self : ∀ (ring : List (Option JPacket)) (idx : Nat) (v : Option JPacket),
    idx < ring.length → (ring.set idx v).getD idx none = v := by
  intro ring
  induction ring with
  | nil => intro idx v h; simp at h
  | cons a rest ih =>
    intro idx v h
    cases idx with
    | zero => rfl
    | succ n =>
      simp only [List.set_cons_succ, List.getD_cons_succ]
      exact ih n v (by simpa using h)

theorem getD_set_ne : ∀ (ring : List (Option JPacket)) (idx i : Nat) (v : Option JPacket),
    i ≠ idx → (ring.set idx v).getD i none = ring.getD i none := by
  intro ring
  induction ring with
  | nil => intro idx i v _; simp [List.getD]
  | cons a rest ih =>
    intro idx i v h
    cases idx with
    | zero =>
      cases i with
      | zero => exact absurd rfl h
      | succ m => rfl
    | succ n =>
      cases i with
      | zero => rfl
      | succ m =>
        simp only [List.set_cons_succ, List.getD_cons_succ]
        exact ih n m v (fun hh => h (by rw [hh]))



theorem getD_set_self_cases : ∀ (ring : List (Option JPacket)) (idx : Nat)
    (v : Option JPacket),
    (ring.set idx v).getD idx none = v ∨
    (ring.set idx v).getD idx none = ring.getD idx none := by
  intro ring
  induction ring with
  | nil => intro idx v; right; rfl
  | cons a rest ih =>
    intro idx v
    cases idx with
    | zero => left; rfl
    | succ n =>
      rcases ih n v with h | h
      · left; simpa using h
      · right; simpa using h

theorem drain_seqs (msz : Nat) : ∀ (fuel : Nat) (ring : List (Option JPacket)) (ls : Nat),
    ls < 65536 →
    ∃ k, ((drain msz fuel ring ls).2.2.map JPacket.seq)
      = (List.range k).map (fun i => (ls + i) % 65536) := by
  intro fuel
  induction fuel with
  | zero => intro ring ls _; exact ⟨0, by simp [drain_zero]⟩
  | succ n ih =>
    intro ring ls hls
    cases hm : ring.getD (ls % msz) none with
    | none => exact ⟨0, by simp [drain_succ_of_none msz n ring ls hm]⟩
    | some q =>
      by_cases hq : q.seq = ls
      · rw [drain_succ_of_match msz n ring ls q hm hq]
        obtain ⟨k, hk⟩ := ih (ring.set (ls % msz) none) ((ls + 1) % 65536)
          (Nat.mod_lt _ (by norm_num))
        refine ⟨k + 1, ?_⟩
        dsimp only
        simp only [List.map_cons, hk, hq]
        rw [List.range_succ_eq_map, List.map_cons, List.map_map]
        congr 1
        · exact (by simpa using (Nat.mod_eq_of_lt hls).symm)
        · apply List.map_congr_left
          intro i _
          simp only [Function.comp_apply]
          rw [Nat.mod_add_mod]
          omega
      · exact ⟨0, by simp [drain_succ_of_mismatch msz n ring ls q hm hq]⟩

theorem set_none_perm : ∀ (ring : List (Option JPacket)) (idx : Nat) (q : JPacket),
    ring.getD idx none = some q →
    List.Perm (somesOf ring) (q :: somesOf (ring.set idx none)) := by
  intro ring
  induction ring with
  | nil => intro idx q h; simp [List.getD] at h
  | cons a rest ih =>
    intro idx q h
    cases idx with
    | zero =>
      simp only [List.getD_cons_zero] at h
      subst h
      simp [somesOf]
    | succ n =>
      simp only [List.getD_cons_succ] at h
      cases a with
      | none =>
        simp only [List.set_cons_succ, somesOf, List.filterMap_cons_none]
        exact ih n q h
      | some b =>
        simp only [List.set_cons_succ, somesOf]
        have e1 : List.filterMap id (some b :: rest) = b :: List.filterMap id rest := rfl
        have e2 : List.filterMap id (some b :: rest.set n none)
            = b :: List.filterMap id (rest.set n none) := rfl
        rw [e1, e2]
        have step : List.Perm (b :: List.filterMap id rest)
            (b :: (q :: List.filterMap id (rest.set n none))) :=
          List.Perm.cons b (by simpa [somesOf] using ih n q h)
        exact step.trans (List.Perm.swap q b _)

theorem drain_perm (msz : Nat) : ∀ (fuel : Nat) (ring : List (Option JPacket)) (ls : Nat),
    List.Perm (somesOf ring)
      (somesOf (drain msz fuel ring ls).1 ++ (drain msz fuel ring ls).2.2) := by
  intro fuel
  induction fuel with
  | zero => intro ring ls; simp [drain_zero]
  | succ n ih =>
    intro ring ls
    cases hm : ring.getD (ls % msz) none with
    | none => simp [drain_succ_of_none msz n ring ls hm]
    | some q =>
      by_cases hq : q.seq = ls
      · rw [drain_succ_of_match msz n ring ls q hm hq]
        dsimp only
        have h1 := set_none_perm ring (ls % msz) q hm
        have h2 := ih (ring.set (ls % msz) none) ((ls + 1) % 65536)
        exact h1.trans ((List.Perm.cons q h2).trans List.perm_middle.symm)
      · rw [drain_succ_of_mismatch msz n ring ls q hm hq]
        simp

theorem drain_slots (msz : Nat) : ∀ (fuel : Nat) (ring : List (Option JPacket)) (ls i : Nat),
    (drain msz fuel ring ls).1.getD i none = ring.getD i none ∨
    (drain msz fuel ring ls).1.getD i none = none := by
  intro fuel
  induction fuel with
  | zero => intro ring ls i; left; rfl
  | succ n ih =>
    intro ring ls i
    cases hm : ring.getD (ls % msz) none with
    | none => rw [drain_succ_of_none msz n ring ls hm]; left; rfl
    | some q =>
      by_cases hq : q.seq = ls
      · rw [drain_succ_of_match msz n ring ls q hm hq]
        dsimp only
        rcases ih (ring.set (ls % msz) none) ((ls + 1) % 65536) i with h | h
        · by_cases hi : i = ls % msz
          · subst hi
            rcases getD_set_self_cases ring (ls % msz) none with h2 | h2
            · right; rw [h, h2]
            · left; rw [h, h2]
          · left; rw [h, getD_set_ne ring (ls % msz) i none hi]
        · right; exact h
      · rw [drain_succ_of_mismatch msz n ring ls q hm hq]; left; rfl

theorem drain_len_le (msz : Nat) : ∀ (fuel : Nat) (ring : List (Option JPacket)) (ls : Nat),
    (drain msz fuel ring ls).2.2.length ≤ fuel := by
  intro fuel
  induction fuel with
  | zero => intro ring ls; simp [drain_zero]
  | succ n ih =>
    intro ring ls
    cases hm : ring.getD (ls % msz) none with
    | none => rw [drain_succ_of_none msz n ring ls hm]; simp
    | some q =>
      by_cases hq : q.seq = ls
      · rw [drain_succ_of_match msz n ring ls q hm hq]
        dsimp only
        simpa using Nat.succ_le_succ (ih (ring.set (ls % msz) none) ((ls + 1) % 65536))
      · rw [drain_succ_of_mismatch msz n ring ls q hm hq]; simp



theorem getD_lt_length : ∀ (ring : List (Option JPacket)) (i : Nat) (r : JPacket),
    ring.getD i none = some r → i < ring.length := by
  intro ring
  induction ring with
  | nil => intro i r h; simp [List.getD] at h
  | cons a rest ih =>
    intro i r h
    cases i with
    | zero => simp
    | succ n =>
      simp only [List.getD_cons_succ] at h
      simpa using ih n r h

theorem mem_somesOf_exists : ∀ (ring : List (Option JPacket)) (q : JPacket),
    q ∈ somesOf ring → ∃ i, ring.getD i none = some q := by
  intro ring
  induction ring with
  | nil => intro q h; simp [somesOf] at h
  | cons a rest ih =>
    intro q h
    cases a with
    | none =>
      simp only [somesOf, List.filterMap_cons_none] at h
      obtain ⟨i, hi⟩ := ih q h
      exact ⟨i + 1, by simpa using hi⟩
    | some b =>
      have e : somesOf (some b :: rest) = b :: somesOf rest := rfl
      rw [e] at h
      rcases List.mem_cons.mp h with rfl | h2
      · exact ⟨0, rfl⟩
      · obtain ⟨i, hi⟩ := ih q h2
        exact ⟨i + 1, by simpa using hi⟩

theorem consec_nodup (ls k : Nat) (hk : k ≤ 65536) :
    (((List.range k).map (fun i => (ls + i) % 65536))).Nodup := by
  apply List.Nodup.map_on
  · intro x hx y hy hxy
    rw [List.mem_range] at hx hy
    omega
  · exact List.nodup_range k

/-- C1 (amended): a packet whose unsigned 16-bit distance from the
expected sequence exceeds the window size is emitted immediately, and the
expected sequence is reset to that packet's sequence (not its successor)
with the ring left untouched — held packets are not flushed; any other
packet is stored and the buffer drains in strictly consecutive sequence
order from the expected sequence, so the emissions of a single delivery
are consecutive modulo 2^16. -/
theorem c1_reorder_behaviour (b : PacketBuffer) (p : JPacket)
    (hms : b.maxSize < 65536) (hlast : b.lastSeq < 65536) :
    (b.maxSize < seqDiff p.seq b.lastSeq →
        handleJitterBuffer b p = ({ b with lastSeq := p.seq }, [p])) ∧
    (seqDiff p.seq b.lastSeq ≤ b.maxSize →
        ∃ k, ((handleJitterBuffer b p).2.map JPacket.seq)
          = (List.range k).map (fun i => (b.lastSeq + i) % 65536)) := by
  have hu : b.maxSize % 65536 = b.maxSize := Nat.mod_eq_of_lt hms
  constructor
  · intro hfar
    simp only [handleJitterBuffer, hu]
    rw [if_pos hfar]
  · intro hnear
    simp only [handleJitterBuffer, hu]
    rw [if_neg (by omega)]
    simp only [processBufferedPackets]
    exact drain_seqs (b.maxSize % 65536) _ _ b.lastSeq hlast

/-- C1 witness: a far-future packet (distance 199 > 100) is emitted at
once, resetting the expected sequence to 300 without draining the ring. -/
theorem c1_witness :
    handleJitterBuffer ⟨List.replicate 100 none, 100, true, 101⟩ ⟨300, []⟩
      = ({ packets := List.replicate 100 none, maxSize := 100,
           initialized := true, lastSeq := 300 }, [⟨300, []⟩]) :=
  (c1_reorder_behaviour ⟨List.replicate 100 none, 100, true, 101⟩ ⟨300, []⟩
    (by decide) (by decide)).1 (by decide)

/-- C1 counterexample: delivering sequences 100 then 50 to a fresh window
emits them in the order 100, 50, which is not strictly increasing modulo
the 16-bit wrap (the late packet resets the window instead of being
dropped or reordered). -/
theorem c1_counterexample :
    ((runJitter newPacketBuffer [⟨100, []⟩, ⟨50, []⟩]).2.map JPacket.seq
      = [100, 50]) ∧
    strictIncrMod16 [100, 50] = false :=
  ⟨rfl, rfl⟩



/-- C6 (amended): when an incoming packet's sequence equals that of a
packet already held in its ring slot, the incoming packet overwrites the
held one: the held packet is neither emitted nor retained anywhere in the
ring (and no duplicate counter exists to record it), and the repeated
sequence number is emitted at most once by the delivery. -/
theorem c6_duplicate_overwrites (b : PacketBuffer) (p q : JPacket)
    (hlen : b.packets.length = b.maxSize)
    (hms : b.maxSize < 65536) (hlast : b.lastSeq < 65536)
    (hinv : ∀ i r, b.packets.getD i none = some r → r.seq % b.maxSize = i)
    (hdiff : seqDiff p.seq b.lastSeq ≤ b.maxSize)
    (hslot : b.packets.getD (p.seq % b.maxSize) none = some q)
    (hne : q ≠ p) (hqseq : q.seq = p.seq) :
    (q ∉ (handleJitterBuffer b p).2) ∧
    (∀ i, (handleJitterBuffer b p).1.packets.getD i none ≠ some q) ∧
    ((handleJitterBuffer b p).2.countP (fun r => r.seq == p.seq) ≤ 1) := by
  have hu : b.maxSize % 65536 = b.maxSize := Nat.mod_eq_of_lt hms
  have hred : handleJitterBuffer b p
      = processBufferedPackets { b with packets := b.packets.set (p.seq % b.maxSize) (some p) } := by
    simp only [handleJitterBuffer, hu]
    rw [if_neg (by omega)]
  have hout : (handleJitterBuffer b p).2
      = (drain (b.maxSize % 65536)
          (countSome (b.packets.set (p.seq % b.maxSize) (some p)))
          (b.packets.set (p.seq % b.maxSize) (some p)) b.lastSeq).2.2 := by
    rw [hred]
    rfl
  have hringOut : (handleJitterBuffer b p).1.packets
      = (drain (b.maxSize % 65536)
          (countSome (b.packets.set (p.seq % b.maxSize) (some p)))
          (b.packets.set (p.seq % b.maxSize) (some p)) b.lastSeq).1 := by
    rw [hred]
    rfl
  have hidxlt : p.seq % b.maxSize < b.packets.length :=
    getD_lt_length b.packets (p.seq % b.maxSize) q hslot
  have hA : ∀ i, (b.packets.set (p.seq % b.maxSize) (some p)).getD i none ≠ some q := by
    intro i
    by_cases hi : i = p.seq % b.maxSize
    · rw [hi, getD_set_self b.packets _ (some p) hidxlt]
      intro h
      exact hne (by injection h with hh; rw [hh])
    · rw [getD_set_ne b.packets _ i (some p) hi]
      intro h
      have h2 := hinv i q h
      rw [hqseq] at h2
      exact hi h2.symm
  have hB : q ∉ somesOf (b.packets.set (p.seq % b.maxSize) (some p)) := by
    intro hmem
    obtain ⟨i, hi⟩ := mem_somesOf_exists _ q hmem
    exact hA i hi
  have hperm := drain_perm (b.maxSize % 65536)
    (countSome (b.packets.set (p.seq % b.maxSize) (some p)))
    (b.packets.set (p.seq % b.maxSize) (some p)) b.lastSeq
  refine ⟨?_, ?_, ?_⟩
  · rw [hout]
    intro hmem
    exact hB ((hperm.mem_iff).mpr (List.mem_append.mpr (Or.inr hmem)))
  · intro i
    rw [hringOut]
    rcases drain_slots (b.maxSize % 65536)
        (countSome (b.packets.set (p.seq % b.maxSize) (some p)))
        (b.packets.set (p.seq % b.maxSize) (some p)) b.lastSeq i with h | h
    · rw [h]; exact hA i
    · rw [h]; intro hh; exact Option.noConfusion hh
  · rw [hout]
    obtain ⟨k, hk⟩ := drain_seqs (b.maxSize % 65536)
      (countSome (b.packets.set (p.seq % b.maxSize) (some p)))
      (b.packets.set (p.seq % b.maxSize) (some p)) b.lastSeq hlast
    have h1 : ((drain (b.maxSize % 65536)
          (countSome (b.packets.set (p.seq % b.maxSize) (some p)))
          (b.packets.set (p.seq % b.maxSize) (some p)) b.lastSeq).2.2).countP
          (fun r => r.seq == p.seq)
        = (((drain (b.maxSize % 65536)
          (countSome (b.packets.set (p.seq % b.maxSize) (some p)))
          (b.packets.set (p.seq % b.maxSize) (some p)) b.lastSeq).2.2).map
            JPacket.seq).countP (fun s => s == p.seq) := by
      rw [List.countP_map]
      rfl
    rw [h1, hk]
    have h6 : (((drain (b.maxSize % 65536)
          (countSome (b.packets.set (p.seq % b.maxSize) (some p)))
          (b.packets.set (p.seq % b.maxSize) (some p)) b.lastSeq).2.2).length) = k := by
      have := congrArg List.length hk
      simpa using this
    have h3 := drain_len_le (b.maxSize % 65536)
      (countSome (b.packets.set (p.seq % b.maxSize) (some p)))
      (b.packets.set (p.seq % b.maxSize) (some p)) b.lastSeq
    have h4 : countSome (b.packets.set (p.seq % b.maxSize) (some p))
        ≤ (b.packets.set (p.seq % b.maxSize) (some p)).length :=
      List.length_filterMap_le _ _
    have h5 : (b.packets.set (p.seq % b.maxSize) (some p)).length = b.packets.length :=
      List.length_set _ _ _
    have hklen : k ≤ 65536 := by omega
    have hnd := consec_nodup b.lastSeq k hklen
    have hcnt := List.nodup_iff_count_le_one.mp hnd p.seq
    simpa [List.count] using hcnt



/-- C6 counterexample: delivering 100, then 102 with payload [1], then
102 again with payload [2], then 101, emits 100, 101 and then 102 with
the later payload [2] — the incoming duplicate is not discarded (it
replaces the held packet, which is never emitted). -/
theorem c6_counterexample :
    ((runJitter newPacketBuffer
        [⟨100, [0]⟩, ⟨102, [1]⟩, ⟨102, [2]⟩, ⟨101, [3]⟩]).2
      = [⟨100, [0]⟩, ⟨101, [3]⟩, ⟨102, [2]⟩]) ∧
    ((⟨102, [1]⟩ : JPacket) ∉ (runJitter newPacketBuffer
        [⟨100, [0]⟩, ⟨102, [1]⟩, ⟨102, [2]⟩, ⟨101, [3]⟩]).2) :=
  ⟨rfl, by decide⟩

/-- C6 witness: the overwrite facts evaluated on a two-slot ring holding
a packet with the duplicate sequence 7. -/
theorem c6_witness :
    ((⟨7, [1]⟩ : JPacket) ∉
        (handleJitterBuffer ⟨[none, some ⟨7, [1]⟩], 2, true, 6⟩ ⟨7, [2]⟩).2) ∧
    ((handleJitterBuffer ⟨[none, some ⟨7, [1]⟩], 2, true, 6⟩ ⟨7, [2]⟩).1.packets.getD 1 none
        ≠ some ⟨7, [1]⟩) ∧
    ((handleJitterBuffer ⟨[none, some ⟨7, [1]⟩], 2, true, 6⟩ ⟨7, [2]⟩).2.countP
        (fun r => r.seq == 7) ≤ 1) :=
  have h := c6_duplicate_overwrites ⟨[none, some ⟨7, [1]⟩], 2, true, 6⟩ ⟨7, [2]⟩ ⟨7, [1]⟩
    rfl (by decide) (by decide)
    (by
      intro i r hget
      cases i with
      | zero => simp [List.getD] at hget
      | succ n =>
        cases n with
        | zero =>
          have h2 : some (⟨7, [1]⟩ : JPacket) = some r := hget
          injection h2 with hh
          rw [← hh]
          decide
        | succ m => simp [List.getD] at hget)
    (by decide) (by decide) (by decide) (by decide)
  ⟨h.1, h.2.1 1, h.2.2⟩

end Karl
